import Mathlib

/-!
Verification of the Pi-Droid vision-guided actuation loop.

Shallow embedding of the repository's Python sources:
* the debounce logic of the monitoring loop in cam.py (deque window of
  STABLE_FRAMES raw states, last announced stable state, state_change events);
* the per-servo lock discipline and press choreography of relais.py;
* the HID digit typer of hid_type_numbers.py / zero/hid_input.py;
* the helpers of idea.py (get_timeout, check_swipe, next_digit).

Machine floats that are only carried through (match scores) are modelled as
rationals; sleep durations are modelled as natural-number ticks (centiseconds),
since no arithmetic is ever performed on them.
-/

namespace PiDroid

/-! ### Debounce tracker (cam.py, main loop)

The monitoring loop keeps a deque of the last STABLE_FRAMES per-frame state
strings together with the last announced stable state.  On each frame the
current state is appended (oldest entry evicted when the deque is full); when
the window is full, all entries agree and the agreed value differs from the
last announced one, a state_change event carrying the state and the current
score is emitted. -/

/-- A raw per-frame reading: the classified state string paired with the
match score of that frame. -/
abbrev Reading := String × ℚ

/-- The debounce state of the cam.py main loop: the deque contents
(oldest first, as the Python deque indexes them) and the last announced
stable state, initially None. -/
structure Tracker where
  hist : List String
  lastStable : Option String
deriving Repr, DecidableEq

/-- The fresh tracker at loop start: empty history, nothing announced. -/
def Tracker.fresh : Tracker := ⟨[], none⟩

/-- deque(maxlen = N).append: append at the right, evicting the oldest
element when the deque already holds N entries. -/
def dequeAppend (N : Nat) (h : List String) (s : String) : List String :=
  if h.length < N then h ++ [s] else h.tail ++ [s]

/-- The stability test of the loop body: the window is full (length = N)
and every entry equals the first one; returns that first entry. -/
def stableOf (N : Nat) (h : List String) : Option String :=
  match h.head? with
  | none => none
  | some s0 => if h.length = N ∧ h.all (fun s => s = s0) then some s0 else none

/-- One iteration of the debounce logic of cam.py main: push the current
reading, and emit a state_change event (state, score) when a new stable
state is detected that differs from the last announced one. -/
def pushReading (N : Nat) (st : Tracker) (r : Reading) : Tracker × Option Reading :=
  let h' := dequeAppend N st.hist r.1
  match stableOf N h' with
  | some s0 =>
      if some s0 = st.lastStable then (⟨h', st.lastStable⟩, none)
      else (⟨h', some s0⟩, some (s0, r.2))
  | none => (⟨h', st.lastStable⟩, none)

/-- Run the debounce loop over a list of readings, returning the final
tracker state and the emitted state_change events in order. -/
def runTracker (N : Nat) (st : Tracker) : List Reading → Tracker × List Reading
  | [] => (st, [])
  | r :: rs =>
      let p := pushReading N st r
      let q := runTracker N p.1 rs
      (q.1, p.2.toList ++ q.2)

/-- The events emitted while running the debounce loop over a list of
readings. -/
def emits (N : Nat) (st : Tracker) (rs : List Reading) : List Reading :=
  (runTracker N st rs).2

lemma dequeAppend_replicate (N j : Nat) (s : String) (hj : j < N) :
    dequeAppend N (List.replicate j s) s = List.replicate (j + 1) s := by
  simp [dequeAppend, hj, List.replicate_succ']

lemma stableOf_replicate_lt (N j : Nat) (s : String) (hj : j < N) :
    stableOf N (List.replicate j s) = none := by
  cases j with
  | zero => simp [stableOf]
  | succ m =>
      simp only [stableOf, List.head?_replicate]
      simp [Nat.ne_of_lt hj]

lemma stableOf_replicate_eq (N : Nat) (s : String) (hN : 1 ≤ N) :
    stableOf N (List.replicate N s) = some s := by
  cases N with
  | zero => omega
  | succ m =>
      simp only [stableOf, List.head?_replicate]
      simp [List.all_eq_true]

lemma pushReading_replicate_lt (N j : Nat) (s : String) (q : ℚ)
    (hj : j + 1 < N) :
    pushReading N ⟨List.replicate j s, none⟩ (s, q) =
      (⟨List.replicate (j + 1) s, none⟩, none) := by
  have hjN : j < N := by omega
  simp [pushReading, dequeAppend_replicate N j s hjN,
    stableOf_replicate_lt N (j + 1) s hj]

lemma pushReading_replicate_fill (N : Nat) (s : String) (q : ℚ)
    (hN : 1 ≤ N) :
    pushReading N ⟨List.replicate (N - 1) s, none⟩ (s, q) =
      (⟨List.replicate N s, some s⟩, some (s, q)) := by
  have h1 : N - 1 < N := by omega
  have h2 : N - 1 + 1 = N := by omega
  simp [pushReading, dequeAppend_replicate N (N - 1) s h1, h2,
    stableOf_replicate_eq N s hN]

lemma runTracker_replicate_lt (N : Nat) (s : String) (q : ℚ) :
    ∀ (m j : Nat), j + m < N →
      runTracker N ⟨List.replicate j s, none⟩ (List.replicate m (s, q)) =
        (⟨List.replicate (j + m) s, none⟩, []) := by
  intro m
  induction m with
  | zero => intro j h; simp [runTracker]
  | succ k ih =>
      intro j h
      have hj1 : j + 1 < N := by omega
      rw [List.replicate_succ]
      simp only [runTracker, pushReading_replicate_lt N j s q hj1]
      have := ih (j + 1) (by omega)
      rw [this]
      simp [show j + 1 + k = j + (k + 1) by omega]

lemma runTracker_append (N : Nat) (st : Tracker) (xs ys : List Reading) :
    runTracker N st (xs ++ ys) =
      ((runTracker N (runTracker N st xs).1 ys).1,
        (runTracker N st xs).2 ++ (runTracker N (runTracker N st xs).1 ys).2) := by
  induction xs generalizing st with
  | nil => simp [runTracker]
  | cons x xs ih => simp [runTracker, ih, List.append_assoc]

/-- C1: from a fresh tracker, N−1 identical readings emit nothing; the Nth
emits exactly one event carrying that state and its score. -/
theorem debounce_first_event (N : Nat) (s : String) (q : ℚ) (hN : 1 ≤ N) :
    emits N Tracker.fresh (List.replicate (N - 1) (s, q)) = [] ∧
    emits N Tracker.fresh (List.replicate N (s, q)) = [(s, q)] := by
  have hrun := runTracker_replicate_lt N s q (N - 1) 0 (by omega)
  simp only [List.replicate_zero, Nat.zero_add] at hrun
  constructor
  · simp only [emits, Tracker.fresh]
    rw [hrun]
  · have hsplit : List.replicate N ((s, q) : Reading) =
        List.replicate (N - 1) (s, q) ++ [(s, q)] := by
      rw [← List.replicate_succ']
      congr 1
      omega
    simp only [emits, Tracker.fresh, hsplit, runTracker_append]
    rw [hrun]
    simp [runTracker, pushReading_replicate_fill N s q hN]

/-- Concrete instantiation of the debounce first-event theorem at
N = 3 (the source's STABLE_FRAMES), state STATE_A, score 9/10. -/
theorem debounce_first_event_check :
    (1 ≤ 3) ∧
    (emits 3 Tracker.fresh (List.replicate 2 ("STATE_A", (9 : ℚ)/10)) = [] ∧
     emits 3 Tracker.fresh (List.replicate 3 ("STATE_A", (9 : ℚ)/10)) =
       [("STATE_A", (9 : ℚ)/10)]) :=
  ⟨by decide, debounce_first_event 3 "STATE_A" ((9 : ℚ)/10) (by decide)⟩

lemma pushReading_none_lastStable (N : Nat) (st : Tracker) (r : Reading)
    (h : (pushReading N st r).2 = none) :
    (pushReading N st r).1.lastStable = st.lastStable := by
  unfold pushReading at *
  cases hs : stableOf N (dequeAppend N st.hist r.1) with
  | none => simp [hs]
  | some s0 =>
      simp only [hs] at h ⊢
      by_cases he : some s0 = st.lastStable
      · simp [he]
      · simp [he] at h

lemma pushReading_some_lastStable (N : Nat) (st : Tracker) (r ev : Reading)
    (h : (pushReading N st r).2 = some ev) :
    (pushReading N st r).1.lastStable = some ev.1 ∧ some ev.1 ≠ st.lastStable := by
  unfold pushReading at *
  cases hs : stableOf N (dequeAppend N st.hist r.1) with
  | none => simp [hs] at h
  | some s0 =>
      simp only [hs] at h ⊢
      by_cases he : some s0 = st.lastStable
      · simp [he] at h
      · simp only [he, if_false] at h ⊢
        cases h' : ev with
        | mk a b =>
            subst h'
            simp_all

lemma emits_chain_aux (N : Nat) :
    ∀ (rs : List Reading) (st : Tracker),
      List.Chain' (fun a b : Reading => a.1 ≠ b.1) (emits N st rs) ∧
      (∀ ev : Reading, (emits N st rs).head? = some ev → some ev.1 ≠ st.lastStable) := by
  intro rs
  induction rs with
  | nil => intro st; simp [emits, runTracker]
  | cons r rs ih =>
      intro st
      have hemit : emits N st (r :: rs) =
          (pushReading N st r).2.toList ++ emits N (pushReading N st r).1 rs := by
        simp [emits, runTracker]
      cases he : (pushReading N st r).2 with
      | none =>
          rw [hemit, he]
          simp only [Option.toList_none, List.nil_append]
          refine ⟨(ih _).1, ?_⟩
          intro ev hev
          have := (ih ((pushReading N st r).1)).2 ev hev
          rwa [pushReading_none_lastStable N st r he] at this
      | some ev =>
          rw [hemit, he]
          simp only [Option.toList_some, List.singleton_append]
          obtain ⟨hlast, hne⟩ := pushReading_some_lastStable N st r ev he
          constructor
          · rw [List.chain'_cons']
            refine ⟨?_, (ih _).1⟩
            intro b hb
            have := (ih ((pushReading N st r).1)).2 b hb
            rw [hlast] at this
            intro hcontra
            exact this (by rw [hcontra])
          · intro ev' hev'
            simp only [List.head?_cons, Option.some.injEq] at hev'
            subst hev'
            exact hne

/-- C2: over any sequence of readings from a fresh tracker, no two
consecutively emitted state_change events carry the same state value. -/
theorem debounce_no_double_announce (N : Nat) (rs : List Reading) :
    List.Chain' (fun a b : Reading => a.1 ≠ b.1) (emits N Tracker.fresh rs) :=
  (emits_chain_aux N rs Tracker.fresh).1

/-! ### Actuator locking and press choreography (relais.py)

The press worker of relais.py acquires the per-servo threading.Lock, moves
the servo to the press angle, holds, returns to the rest angle with short
settle sleeps and an extra pulse to angle 0, then releases the lock.  We
model each worker thread as a list of atomic events and interleave threads
explicitly; the lock discipline (an acquire succeeds only on a free lock, a
release only by the holder) picks out the traces the Python runtime can
produce.  Sleep durations are ticks (centiseconds): 0.05 s is 5, 0.02 s
is 2. -/

/-- An atomic action of a press worker: lock acquire/release on the servo's
lock (keys are numbered), a ChangeDutyCycle command to a target angle, or a
sleep. -/
inductive PAct where
  | acq (k : Nat)
  | rel (k : Nat)
  | move (angle : Int)
  | sleep (ticks : Nat)
deriving Repr, DecidableEq

/-- An event of a trace: which thread performed which action. -/
abbrev PEvent := Nat × PAct

/-- The lock table: for each key, the thread currently holding the lock. -/
abbrev LockSt := Nat → Option Nat

/-- All locks free, as after module import. -/
def freeLocks : LockSt := fun _ => none

/-- One step of the lock discipline: an acquire succeeds only when the lock
is free, a release only when the acting thread holds it; moves and sleeps
never touch the lock table. -/
def lockStep (s : LockSt) (e : PEvent) : Option LockSt :=
  match e.2 with
  | .acq k =>
      match s k with
      | none => some (fun k' => if k' = k then some e.1 else s k')
      | some _ => none
  | .rel k =>
      match s k with
      | some t => if t = e.1 then some (fun k' => if k' = k then none else s k') else none
      | none => none
  | .move _ => some s
  | .sleep _ => some s

/-- A trace is valid from a lock table when every event obeys the lock
discipline in sequence. -/
def validFromB (s : LockSt) : List PEvent → Bool
  | [] => true
  | e :: tr =>
      match lockStep s e with
      | some s' => validFromB s' tr
      | none => false

/-- tr is an interleaving of the two thread-local event lists xs and ys,
preserving the order within each thread. -/
inductive Interleaving : List PEvent → List PEvent → List PEvent → Prop where
  | nil : Interleaving [] [] []
  | left (e : PEvent) {xs ys tr : List PEvent} :
      Interleaving xs ys tr → Interleaving (e :: xs) ys (e :: tr)
  | right (e : PEvent) {xs ys tr : List PEvent} :
      Interleaving xs ys tr → Interleaving xs (e :: ys) (e :: tr)

/-- The body of _press_blocking inside the lock: move to the press angle,
sleep the hold duration, move to the rest angle, sleep 0.05 s, pulse to
angle 0, sleep 0.02 s, move back to the rest angle. -/
def pressMoves (pressAngle : Int) (hold : Nat) (restAngle : Int) : List PAct :=
  [.move pressAngle, .sleep hold, .move restAngle, .sleep 5,
   .move 0, .sleep 2, .move restAngle]

/-- The in-lock body of a press worker as events of thread tid. -/
def pressTail (tid k : Nat) (pressAngle : Int) (hold : Nat) (restAngle : Int) :
    List PEvent :=
  (pressMoves pressAngle hold restAngle).map (fun x => (tid, x)) ++ [(tid, .rel k)]

/-- The whole _press_blocking worker of thread tid on servo lock k:
acquire the lock, run the press body, release. -/
def pressProg (tid k : Nat) (pressAngle : Int) (hold : Nat) (restAngle : Int) :
    List PEvent :=
  (tid, .acq k) :: pressTail tid k pressAngle hold restAngle

/-- Actions that do not touch the lock table. -/
def PAct.lockFree : PAct → Bool
  | .acq _ => false
  | .rel _ => false
  | .move _ => true
  | .sleep _ => true

lemma lockStep_lockFree (s : LockSt) (t : Nat) (x : PAct)
    (hx : x.lockFree = true) : lockStep s (t, x) = some s := by
  cases x <;> simp_all [PAct.lockFree, lockStep]

lemma pressMoves_lockFree (p : Int) (h : Nat) (r : Int) :
    ∀ x ∈ pressMoves p h r, x.lockFree = true := by
  intro x hx
  simp only [pressMoves, List.mem_cons, List.not_mem_nil, or_false] at hx
  rcases hx with h' | h' | h' | h' | h' | h' | h' <;> subst h' <;> rfl

lemma interleaving_symm : ∀ {xs ys tr : List PEvent},
    Interleaving xs ys tr → Interleaving ys xs tr := by
  intro xs ys tr h
  induction h with
  | nil => exact Interleaving.nil
  | left e _ ih => exact Interleaving.right e ih
  | right e _ ih => exact Interleaving.left e ih

lemma interleaving_nil_left : ∀ {ys tr : List PEvent},
    Interleaving [] ys tr → tr = ys := by
  intro ys
  induction ys with
  | nil => intro tr h; cases h; rfl
  | cons y ys ih =>
      intro tr h
      cases h with
      | right e h' => rw [ih h']

lemma interleaving_nil_right : ∀ (ys : List PEvent), Interleaving [] ys ys := by
  intro ys
  induction ys with
  | nil => exact Interleaving.nil
  | cons y ys ih => exact Interleaving.right y ih

lemma interleaving_all_left (xs ys : List PEvent) :
    Interleaving xs ys (xs ++ ys) := by
  induction xs with
  | nil => simpa using interleaving_nil_right ys
  | cons x xs ih => exact Interleaving.left x ih

/-- Inside another thread's critical section on lock k, a waiting thread's
acquire of k can never be scheduled: the whole in-lock body and the release
of the holder come first. -/
lemma press_body_serial (a b k : Nat) :
    ∀ (body : List PAct) (s : LockSt) (ys tr : List PEvent),
      s k = some a →
      (∀ x ∈ body, x.lockFree = true) →
      Interleaving (body.map (fun x => (a, x)) ++ [(a, PAct.rel k)])
        ((b, PAct.acq k) :: ys) tr →
      validFromB s tr = true →
      tr = body.map (fun x => (a, x)) ++ (a, PAct.rel k) :: (b, PAct.acq k) :: ys := by
  intro body
  induction body with
  | nil =>
      intro s ys tr hk _ hint hv
      simp only [List.map_nil, List.nil_append] at hint ⊢
      cases hint with
      | left e h' =>
          rw [interleaving_nil_left h']
      | right e h' =>
          simp [validFromB, lockStep, hk] at hv
  | cons x body ih =>
      intro s ys tr hk hlf hint hv
      simp only [List.map_cons, List.cons_append] at hint ⊢
      cases hint with
      | left e h' =>
          have hxfree : x.lockFree = true := hlf x (List.mem_cons_self x body)
          have hstep := lockStep_lockFree s a x hxfree
          simp only [validFromB, hstep] at hv
          have := ih s ys _ hk (fun y hy => hlf y (List.mem_cons_of_mem x hy)) h' hv
          rw [this]
      | right e h' =>
          simp [validFromB, lockStep, hk] at hv

/-- C3: two press workers on the same servo lock never interleave — every
valid interleaving is one whole press followed by the other — while press
workers on different servo locks admit a valid interleaving that is neither
sequential order. -/
theorem press_mutual_exclusion :
    (∀ (a b k : Nat) (p1 r1 p2 r2 : Int) (h1 h2 : Nat) (tr : List PEvent),
        Interleaving (pressProg a k p1 h1 r1) (pressProg b k p2 h2 r2) tr →
        validFromB freeLocks tr = true →
        tr = pressProg a k p1 h1 r1 ++ pressProg b k p2 h2 r2 ∨
        tr = pressProg b k p2 h2 r2 ++ pressProg a k p1 h1 r1) ∧
    (∃ tr : List PEvent,
        Interleaving (pressProg 0 0 60 25 90) (pressProg 1 1 60 50 90) tr ∧
        validFromB freeLocks tr = true ∧
        tr ≠ pressProg 0 0 60 25 90 ++ pressProg 1 1 60 50 90 ∧
        tr ≠ pressProg 1 1 60 50 90 ++ pressProg 0 0 60 25 90) := by
  constructor
  · intro a b k p1 r1 p2 r2 h1 h2 tr hint hv
    simp only [pressProg] at hint
    cases hint with
    | left e h' =>
        left
        simp only [validFromB, lockStep, freeLocks] at hv
        have hk : (fun k' => if k' = k then some a else (none : Option Nat)) k
            = some a := by simp
        have hser := press_body_serial a b k (pressMoves p1 h1 r1) _
          ((pressMoves p2 h2 r2).map (fun x => (b, x)) ++ [(b, PAct.rel k)]) _
          hk (pressMoves_lockFree p1 h1 r1)
          (by simpa only [pressTail] using h') hv
        simp only [pressProg, pressTail]
        rw [hser]
        simp
    | right e h' =>
        right
        simp only [validFromB, lockStep, freeLocks] at hv
        have hk : (fun k' => if k' = k then some b else (none : Option Nat)) k
            = some b := by simp
        have hser := press_body_serial b a k (pressMoves p2 h2 r2) _
          ((pressMoves p1 h1 r1).map (fun x => (a, x)) ++ [(a, PAct.rel k)]) _
          hk (pressMoves_lockFree p2 h2 r2)
          (by simpa only [pressTail] using (interleaving_symm h')) hv
        simp only [pressProg, pressTail]
        rw [hser]
        simp
  · refine ⟨(0, PAct.acq 0) :: (1, PAct.acq 1) ::
      (pressTail 0 0 60 25 90 ++ pressTail 1 1 60 50 90), ?_, ?_, ?_, ?_⟩
    · exact Interleaving.left _ (Interleaving.right _
        (interleaving_all_left (pressTail 0 0 60 25 90) (pressTail 1 1 60 50 90)))
    · rfl
    · decide
    · decide

/-- Concrete instantiation of the same-lock serialization half of the
mutual-exclusion theorem: the fully sequential schedule of two presses on
lock 7 is a valid interleaving and is one of the two admitted orders. -/
theorem press_mutual_exclusion_check :
    (pressProg 0 7 60 25 90 ++ pressProg 1 7 120 25 90 =
       pressProg 0 7 60 25 90 ++ pressProg 1 7 120 25 90 ∨
     pressProg 0 7 60 25 90 ++ pressProg 1 7 120 25 90 =
       pressProg 1 7 120 25 90 ++ pressProg 0 7 60 25 90) :=
  press_mutual_exclusion.1 0 1 7 60 90 120 90 25 25 _
    (interleaving_all_left _ _) (by rfl)

/-- The angle commands of one press, in order. -/
def movesOf (acts : List PAct) : List Int :=
  acts.filterMap (fun a => match a with | .move x => some x | _ => none)

/-- C7 counterexample: with the default UP parameters (press angle 60,
rest angle 90) the press worker also commands angle 0, an angle target that
is neither the press angle nor the rest angle. -/
theorem press_commands_zero_pulse :
    (0 : Int) ∈ movesOf (pressMoves 60 25 90) ∧
    (0 : Int) ≠ 60 ∧ (0 : Int) ≠ 90 := by
  decide

/-- C7 amended: under the servo's lock, the press worker commands exactly
the angle targets press, rest, 0, rest in that order (the extra 0 is a
short pulse between two returns to rest), so the press ends at the rest
angle; the lock is acquired first and released last. -/
theorem press_sequence_spec (tid k : Nat) (p r : Int) (h : Nat) :
    movesOf (pressMoves p h r) = [p, r, 0, r] ∧
    (movesOf (pressMoves p h r)).getLast? = some r ∧
    (pressProg tid k p h r).head? = some (tid, PAct.acq k) ∧
    (pressProg tid k p h r).getLast? = some (tid, PAct.rel k) := by
  refine ⟨rfl, rfl, rfl, ?_⟩
  show (((tid, PAct.acq k) :: (pressMoves p h r).map (fun x => (tid, x)))
      ++ [(tid, PAct.rel k)]).getLast? = some (tid, PAct.rel k)
  rw [List.getLast?_append_cons]
  rfl

/-! ### Module-level actuator state and trigger entry points (relais.py)

setup initializes GPIO and creates a servo for every key whose pin is set;
the default pin table binds all three keys, and setup leaves an existing
initialization untouched.  _start_press_thread initializes on demand,
returns False when the servo is unconfigured, and otherwise starts (and
returns) a worker thread that runs _press_blocking; we model the returned
Thread by the event program the worker will run. -/

/-- The three servo keys of relais.py. -/
inductive SKey where
  | UP
  | DOWN
  | PWR
deriving Repr, DecidableEq

/-- Numbering of keys, used as thread id and lock key in the event model. -/
def keyTid : SKey → Nat
  | .UP => 0
  | .DOWN => 1
  | .PWR => 2

/-- _DEFAULT_PINS: BCM pins 17, 27, 22. -/
def defaultPins : SKey → Option Nat
  | .UP => some 17
  | .DOWN => some 27
  | .PWR => some 22

/-- The relais.py module state: the _gpio_initialized flag, the pin table
and, per key, whether a servo object is bound. -/
structure RState where
  inited : Bool
  pins : SKey → Option Nat
  servos : SKey → Bool

/-- Module state at import: not initialized, default pins, no servos. -/
def initialRState : RState := ⟨false, defaultPins, fun _ => false⟩

/-- setup(up_pin, down_pin, pwr_pin): a no-op when already initialized;
otherwise overrides the pin table with any supplied pins and binds a servo
for every key whose pin is set. -/
def setup (st : RState) (upPin downPin pwrPin : Option Nat) : RState :=
  if st.inited then st
  else
    let pins' : SKey → Option Nat := fun k =>
      match k with
      | .UP => match upPin with | some p => some p | none => st.pins .UP
      | .DOWN => match downPin with | some p => some p | none => st.pins .DOWN
      | .PWR => match pwrPin with | some p => some p | none => st.pins .PWR
    ⟨true, pins', fun k => (pins' k).isSome⟩

/-- The initialize-on-demand preamble shared by _press_blocking and
_start_press_thread: call setup() with defaults when not yet initialized. -/
def ensureSetup (st : RState) : RState :=
  if st.inited then st else setup st none none none

/-- _start_press_thread: ensure initialization, return False (none) when
the servo is unconfigured, else return the started worker thread, modelled
by the press program it will run. -/
def startPressThread (st : RState) (k : SKey) (pressAngle : Int) (hold : Nat)
    (restAngle : Int) : RState × Option (List PEvent) :=
  let st' := ensureSetup st
  if st'.servos k then
    (st', some (pressProg (keyTid k) (keyTid k) pressAngle hold restAngle))
  else (st', none)

/-- UP(seconds, press_angle): trigger the UP servo (defaults hold 0.25 s,
press angle 60, rest 90). -/
def UP (st : RState) (seconds : Nat) (pressAngle : Int) :
    RState × Option (List PEvent) :=
  startPressThread st .UP pressAngle seconds 90

/-- DOWN(seconds, press_angle): trigger the DOWN servo (default press
angle 120). -/
def DOWN (st : RState) (seconds : Nat) (pressAngle : Int) :
    RState × Option (List PEvent) :=
  startPressThread st .DOWN pressAngle seconds 90

/-- PWR(seconds, press_angle): trigger the PWR servo (default hold 0.5 s). -/
def PWR (st : RState) (seconds : Nat) (pressAngle : Int) :
    RState × Option (List PEvent) :=
  startPressThread st .PWR pressAngle seconds 90

/-- C8: a trigger returns False (none) exactly when the servo is not
configured after the initialize-on-demand preamble — an ordinary return
value, not an exception; otherwise it returns a thread handle whose work is
the press program, while the module state it leaves behind shows no press
effect (the press runs in the returned worker, so the caller that needs
completion must join it). -/
theorem trigger_start_spec (st : RState) (k : SKey) (p : Int) (h : Nat)
    (r : Int) :
    ((startPressThread st k p h r).2 = none ↔
      (ensureSetup st).servos k = false) ∧
    (∀ w, (startPressThread st k p h r).2 = some w →
      w = pressProg (keyTid k) (keyTid k) p h r) ∧
    (startPressThread st k p h r).1 = ensureSetup st := by
  unfold startPressThread
  by_cases hs : (ensureSetup st).servos k <;> simp [hs]

/-- Concrete instantiation of the trigger contract: from the import-time
module state, triggering UP auto-initializes with the default pin table,
so a worker handle is returned and its program is the UP press program. -/
theorem trigger_start_spec_check :
    (startPressThread initialRState SKey.UP 60 25 90).2 =
      some (pressProg 0 0 60 25 90) ∧
    pressProg 0 0 60 25 90 = pressProg 0 0 60 25 90 :=
  ⟨rfl, (trigger_start_spec initialRState SKey.UP 60 25 90).2.1
    (pressProg 0 0 60 25 90) rfl⟩

/-! ### HID digit typer (hid_type_numbers.py and zero/hid_input.py)

type_numbers validates the device path, then validates the input with
Python's str.isdigit, then writes an 8-byte press report and a release
report per character, followed by Enter.  CPython's str.isdigit accepts
Unicode digit characters beyond ASCII (we model the superscript digits
¹ ² ³, which isdigit accepts but which have no entry in NUM_KEYCODES and
which int() rejects); isdigit is false on the empty string. -/

/-- NUM_KEYCODES: HID usage IDs of the main-layout digit keys. -/
def NUM_KEYCODES : List (Char × Nat) :=
  [('1', 0x1E), ('2', 0x1F), ('3', 0x20), ('4', 0x21), ('5', 0x22),
   ('6', 0x23), ('7', 0x24), ('8', 0x25), ('9', 0x26), ('0', 0x27)]

/-- HID usage ID of the Enter key. -/
def ENTER_KEYCODE : Nat := 0x28

/-- NUM_KEYCODES[ch]: the dictionary lookup of the typing loop; none is a
Python KeyError. -/
def lookupKeycode (c : Char) : Option Nat :=
  (NUM_KEYCODES.find? (fun p => p.1 == c)).map Prod.snd

/-- _send_report: one 8-byte report [modifier, 0, k1..k6 zero-padded]. -/
def sendReport (modifier : Nat) (keycodes : List Nat) : List Nat :=
  [modifier, 0] ++ keycodes ++ List.replicate (6 - keycodes.length) 0

/-- _press_key: a press report for the keycode followed by a release
report. -/
def pressKey (keycode : Nat) : List (List Nat) :=
  [sendReport 0 [keycode], sendReport 0 []]

/-- Python str.isdigit on one character, modelled for the characters
relevant here: ASCII digits plus the superscript digits ¹ ² ³. -/
def pyDigitChar (c : Char) : Bool :=
  c.isDigit || c == '¹' || c == '²' || c == '³'

/-- Python str.isdigit: nonempty and every character a digit character
(false on the empty string). -/
def pyIsDigit (s : List Char) : Bool := !s.isEmpty && s.all pyDigitChar

/-- The exceptions type_numbers can raise. -/
inductive HidErr where
  | fileNotFound
  | valueError
  | keyError (c : Char)
deriving Repr, DecidableEq

/-- The typing loop of type_numbers: look up each character's keycode (a
missing key is a Python KeyError) and emit its press/release reports in
order. -/
def typeDigitReports : List Char → Except HidErr (List (List Nat))
  | [] => .ok []
  | c :: cs =>
      match lookupKeycode c with
      | some kc =>
          match typeDigitReports cs with
          | .ok rest => .ok (pressKey kc ++ rest)
          | .error e => .error e
      | none => .error (.keyError c)

/-- HIDTyper.type_numbers: FileNotFoundError when the device path is
absent, ValueError when the input fails str.isdigit, otherwise the report
sequence written to the device (press/release per character, then Enter
when press_enter). -/
def type_numbers (deviceExists : Bool) (s : List Char) (pressEnter : Bool) :
    Except HidErr (List (List Nat)) :=
  if !deviceExists then .error .fileNotFound
  else if !pyIsDigit s then .error .valueError
  else
    match typeDigitReports s with
    | .ok reports =>
        .ok (reports ++ if pressEnter then pressKey ENTER_KEYCODE else [])
    | .error e => .error e

/-- The reports of the typing loop, one press/release pair per character
in order. -/
def digitReports (s : List Char) : List (List Nat) :=
  s.foldr (fun c acc => pressKey ((lookupKeycode c).getD 0) ++ acc) []

lemma typeDigitReports_error (s : List Char) (e : HidErr)
    (h : typeDigitReports s = .error e) : ∃ c, e = .keyError c := by
  induction s generalizing e with
  | nil => simp [typeDigitReports] at h
  | cons c cs ih =>
      simp only [typeDigitReports] at h
      cases hl : lookupKeycode c with
      | none =>
          simp only [hl] at h
          exact ⟨c, by injection h with h'; exact h'.symm⟩
      | some kc =>
          simp only [hl] at h
          cases hr : typeDigitReports cs with
          | ok rest => simp [hr] at h
          | error e' =>
              simp only [hr] at h
              injection h with h'
              exact h' ▸ ih e' hr

lemma typeDigitReports_ok (s : List Char)
    (h : ∀ c ∈ s, (lookupKeycode c).isSome = true) :
    typeDigitReports s = .ok (digitReports s) := by
  induction s with
  | nil => rfl
  | cons c cs ih =>
      have hc := h c (List.mem_cons_self c cs)
      cases hl : lookupKeycode c with
      | none => rw [hl] at hc; simp at hc
      | some kc =>
          simp only [typeDigitReports, hl,
            ih (fun x hx => h x (List.mem_cons_of_mem c hx))]
          simp [digitReports, hl]

/-- The ten ASCII digit characters, the keys of NUM_KEYCODES. -/
def asciiDigits : List Char := ['0', '1', '2', '3', '4', '5', '6', '7', '8', '9']

lemma lookupKeycode_of_mem (c : Char) (hc : c ∈ asciiDigits) :
    (lookupKeycode c).isSome = true := by
  fin_cases hc <;> rfl

lemma pyIsDigit_of_mem (s : List Char) (hne : s ≠ [])
    (h : ∀ c ∈ s, c ∈ asciiDigits) : pyIsDigit s = true := by
  simp only [pyIsDigit, Bool.and_eq_true, List.all_eq_true]
  refine ⟨by simpa using hne, ?_⟩
  intro c hcs
  have := h c hcs
  fin_cases this <;> rfl

/-- C4 counterexample: with the device present, the empty input contains no
non-digit character, yet type_numbers raises ValueError (Python's isdigit
is false on the empty string) instead of performing the promised write. -/
theorem type_numbers_empty_input :
    type_numbers true [] true = .error HidErr.valueError ∧
    (¬ ∃ c ∈ ([] : List Char), c.isDigit = false) := by
  exact ⟨rfl, by simp⟩

/-- C4 amended: type_numbers raises FileNotFoundError iff the device is
absent; raises ValueError iff the device is present and the input fails
Python's isdigit test (in particular the empty string); and for a present
device and a nonempty input made of ASCII digits 0-9 it raises nothing and
writes one press/release report pair per digit in order, followed by Enter
when press_enter. -/
theorem type_numbers_spec (d : Bool) (s : List Char) (pe : Bool) :
    (type_numbers d s pe = .error HidErr.fileNotFound ↔ d = false) ∧
    (type_numbers d s pe = .error HidErr.valueError ↔
      d = true ∧ pyIsDigit s = false) ∧
    (d = true → s ≠ [] → (∀ c ∈ s, c ∈ asciiDigits) →
      type_numbers d s pe =
        .ok (digitReports s ++ if pe then pressKey ENTER_KEYCODE else [])) := by
  cases d with
  | false => simp [type_numbers]
  | true =>
      by_cases hpd : pyIsDigit s = true
      · have hunfold : type_numbers true s pe =
            (match typeDigitReports s with
             | .ok reports =>
                 .ok (reports ++ if pe then pressKey ENTER_KEYCODE else [])
             | .error e => .error e) := by
          simp [type_numbers, hpd]
        refine ⟨?_, ?_, ?_⟩
        · rw [hunfold]
          cases hr : typeDigitReports s with
          | ok reports => simp
          | error e =>
              obtain ⟨c, hc⟩ := typeDigitReports_error s e hr
              subst hc
              simp
        · rw [hunfold]
          cases hr : typeDigitReports s with
          | ok reports => simp [hpd]
          | error e =>
              obtain ⟨c, hc⟩ := typeDigitReports_error s e hr
              subst hc
              simp [hpd]
        · intro _ hne hmem
          have hall : ∀ c ∈ s, (lookupKeycode c).isSome = true :=
            fun c hc => lookupKeycode_of_mem c (hmem c hc)
          simp [type_numbers, hpd, typeDigitReports_ok s hall]
      · have hpd' : pyIsDigit s = false := by
          cases hb : pyIsDigit s
          · rfl
          · exact absurd hb hpd
        have hres : type_numbers true s pe = .error HidErr.valueError := by
          simp [type_numbers, hpd']
        refine ⟨?_, ?_, ?_⟩
        · rw [hres]; simp
        · rw [hres]; simp [hpd']
        · intro _ hne hmem
          exact absurd (pyIsDigit_of_mem s hne hmem) hpd

/-- Concrete instantiation of the amended typing contract: typing "42"
with the device present writes press/release pairs for 4 and 2 and then
Enter. -/
theorem type_numbers_spec_check :
    type_numbers true ['4', '2'] true =
      .ok (digitReports ['4', '2'] ++
        if true then pressKey ENTER_KEYCODE else []) :=
  (type_numbers_spec true ['4', '2'] true).2.2 rfl (by decide) (by decide)

/-- C10: the superscript digit ² passes Python's isdigit (so the ValueError
guard is not taken) but is absent from NUM_KEYCODES, and type_numbers
raises KeyError rather than the documented ValueError on it: the ValueError
precondition covers only the ASCII digits. -/
theorem type_numbers_unicode_keyerror :
    pyIsDigit ['²'] = true ∧
    lookupKeycode '²' = none ∧
    type_numbers true ['²'] true = .error (HidErr.keyError '²') ∧
    type_numbers true ['²'] true ≠ .error HidErr.valueError := by
  refine ⟨rfl, rfl, rfl, ?_⟩
  intro h
  have h' : Except.error (ε := HidErr) (α := List (List Nat))
      (HidErr.keyError '²') = .error HidErr.valueError := h
  injection h' with h2
  exact HidErr.noConfusion h2

/-! ### Controller helpers (idea.py)

get_timeout digit-filters the OCR text of the Info_text region (None is
tolerated) and parses it with int(); check_swipe compares the result of the
missing cam.check helper with a string constant; next_digit serves
candidate codes from digits/{count}digit.txt. -/

/-- The decimal value of an ASCII digit string, as int() computes it. -/
def decValue (s : List Char) : Nat :=
  s.foldl (fun n c => 10 * n + (c.toNat - 48)) 0

/-- Python int() on a digit-filtered string, over the character set
modelled above: defined exactly on nonempty ASCII-digit strings; CPython's
int() raises ValueError on the superscript digits even though isdigit
accepts them. -/
def pyInt (s : List Char) : Option Nat :=
  if !s.isEmpty && s.all Char.isDigit then some (decValue s) else none

/-- The observable outcome of get_timeout: a parsed integer, the implicit
None (no active lockout), or a raised exception. -/
inductive TimeoutResult where
  | val (n : Nat)
  | noTimeout
  | pyError
deriving Repr, DecidableEq

/-- get_timeout of idea.py: keep only isdigit characters of the OCR text
(None is treated as empty), return int of the residue when it is nonempty
and fall through to None otherwise. -/
def get_timeout (ocr : Option (List Char)) : TimeoutResult :=
  let t := (ocr.getD []).filter pyDigitChar
  if t.isEmpty then .noTimeout
  else
    match pyInt t with
    | some n => .val n
    | none => .pyError

/-- C5 counterexample: the OCR text "²" has an isdigit character, so the
digit filter keeps it, yet int() raises ValueError on it — get_timeout
raises instead of returning the parsed integer or None. -/
theorem get_timeout_superscript :
    pyDigitChar '²' = true ∧ get_timeout (some ['²']) = TimeoutResult.pyError := by
  exact ⟨rfl, rfl⟩

/-- C5 amended: when the digit-filtered residue of the OCR text is empty
get_timeout returns None (distinct from the integer 0); when the residue is
nonempty and consists of ASCII digits it returns the residue's decimal
value (so "042" yields 42); a residue containing a non-ASCII digit
character raises ValueError instead. -/
theorem get_timeout_spec (ocr : Option (List Char)) :
    ((ocr.getD []).filter pyDigitChar = [] →
      get_timeout ocr = TimeoutResult.noTimeout ∧
      ∀ n, get_timeout ocr ≠ TimeoutResult.val n) ∧
    ((ocr.getD []).filter pyDigitChar ≠ [] →
      (∀ c ∈ (ocr.getD []).filter pyDigitChar, c.isDigit = true) →
      get_timeout ocr = TimeoutResult.val (decValue ((ocr.getD []).filter pyDigitChar))) ∧
    get_timeout (some ['0', '4', '2']) = TimeoutResult.val 42 := by
  refine ⟨?_, ?_, by decide⟩
  · intro hempty
    have : get_timeout ocr = TimeoutResult.noTimeout := by
      simp [get_timeout, hempty]
    exact ⟨this, fun n h => by rw [this] at h; exact TimeoutResult.noConfusion h⟩
  · intro hne hall
    have hni : ((ocr.getD []).filter pyDigitChar).isEmpty = false := by
      simpa [List.isEmpty_iff] using hne
    have hall' : ((ocr.getD []).filter pyDigitChar).all Char.isDigit = true := by
      rw [List.all_eq_true]
      exact hall
    have hint : pyInt ((ocr.getD []).filter pyDigitChar) =
        some (decValue ((ocr.getD []).filter pyDigitChar)) := by
      simp [pyInt, hni, hall']
    simp [get_timeout, hni, hint]

/-- Concrete instantiation of the get_timeout contract at OCR text "042":
the residue is nonempty ASCII digits and parses to 42, not 0. -/
theorem get_timeout_spec_check :
    get_timeout (some ['0', '4', '2']) =
      TimeoutResult.val (decValue (((some ['0', '4', '2'] : Option (List Char)).getD []).filter pyDigitChar)) :=
  (get_timeout_spec (some ['0', '4', '2'])).2.1 (by decide) (by decide)

/-- A Python value as far as check_swipe's comparison needs: a boolean
match result, a string, or a number. -/
inductive PyVal where
  | bool (b : Bool)
  | str (s : String)
  | num (q : ℚ)
deriving Repr, DecidableEq

/-- Python == between such values: bools, strings and numbers compare
within their kind, a bool compares numerically with a number (True is 1),
and a bool or number is never equal to a str. -/
def pyEq : PyVal → PyVal → Bool
  | .bool b, .bool c => b == c
  | .str s, .str t => s == t
  | .num p, .num q => p == q
  | .bool b, .num q => (if b then (1 : ℚ) else 0) == q
  | .num q, .bool b => q == (if b then (1 : ℚ) else 0)
  | .bool _, .str _ => false
  | .str _, .bool _ => false
  | .num _, .str _ => false
  | .str _, .num _ => false

/-- Modelled from the spec: cam.check does not exist in the sources
(cam.py defines only the matching helpers and the loop); per the spec's
RegionClassifier contract, matches(region, threshold) returns a boolean —
true iff the best template-match score reaches the threshold. -/
def camCheck (score threshold : ℚ) : PyVal := .bool (decide (threshold ≤ score))

/-- The swipe_text constant of idea.py. -/
def swipe_text : String := "Zum Entsperren wischen"

/-- check_swipe of idea.py: compare cam.check('Swipe', threshold=0.8)
against the swipe message string with Python ==. -/
def check_swipe (score : ℚ) : Bool :=
  pyEq (camCheck score (8 / 10)) (.str swipe_text)

/-- C9: the boolean result of the swipe template check is never Python-==
to the string constant, so check_swipe is false on every input. -/
theorem check_swipe_always_false (score : ℚ) : check_swipe score = false := rfl

/-- Result of next_digit: False when the per-length file is missing, the
"done" exhaustion marker, a candidate line, or the IndexError Python would
raise past the end of the file. -/
inductive NDResult where
  | missing
  | done
  | candidate (s : List Char)
  | indexError
deriving Repr, DecidableEq

/-- Python str.strip: remove leading and trailing whitespace. -/
def pyStrip (s : List Char) : List Char :=
  ((s.dropWhile Char.isWhitespace).reverse.dropWhile Char.isWhitespace).reverse

/-- next_digit of idea.py over a file-system snapshot mapping each digit
count to the lines of digits/{count}digit.txt (None when the file is
missing).  total_lines is len(readlines()) − 1, an integer as in Python;
when line reaches it the result is "done", otherwise line line+1 is served
stripped (indexing past the end would raise IndexError). -/
def next_digit (fs : Nat → Option (List (List Char))) (count line : Nat) :
    NDResult :=
  match fs count with
  | none => .missing
  | some lines =>
      if (line : Int) = (lines.length : Int) - 1 then .done
      else
        match lines.get? (line + 1) with
        | some s => .candidate (pyStrip s)
        | none => .indexError

/-- C6: next_digit is a pure function of the file snapshot (equal file
contents give equal candidates on replay); a missing per-length file gives
False; when line is the final index (line count minus one) the result is
the "done" exhaustion marker, never a candidate again; and before that the
candidate at file line line+1 is served stripped. -/
theorem next_digit_spec (fs gs : Nat → Option (List (List Char)))
    (count line : Nat) (lines : List (List Char)) :
    (fs count = gs count →
      next_digit fs count line = next_digit gs count line) ∧
    (fs count = none → next_digit fs count line = NDResult.missing) ∧
    (fs count = some lines → 1 ≤ lines.length → line = lines.length - 1 →
      next_digit fs count line = NDResult.done ∧
      ∀ s, next_digit fs count line ≠ NDResult.candidate s) ∧
    (fs count = some lines → line + 1 < lines.length →
      ∃ s, lines.get? (line + 1) = some s ∧
        next_digit fs count line = NDResult.candidate (pyStrip s)) := by
  refine ⟨?_, ?_, ?_, ?_⟩
  · intro heq
    unfold next_digit
    rw [heq]
  · intro hnone
    unfold next_digit
    rw [hnone]
  · intro hsome hlen hline
    have hdone : next_digit fs count line = NDResult.done := by
      unfold next_digit
      rw [hsome]
      have : (line : Int) = (lines.length : Int) - 1 := by omega
      simp [this]
    exact ⟨hdone, fun s h => by rw [hdone] at h; exact NDResult.noConfusion h⟩
  · intro hsome hlt
    have hne : ¬ ((line : Int) = (lines.length : Int) - 1) := by omega
    have hget : lines.get? (line + 1) = some (lines.get ⟨line + 1, hlt⟩) :=
      List.get?_eq_get hlt
    refine ⟨lines.get ⟨line + 1, hlt⟩, hget, ?_⟩
    simp only [next_digit, hsome]
    rw [if_neg hne, hget]

/-- An example candidate file for length 4: a header line followed by two
candidates; other lengths are missing. -/
def exampleFS : Nat → Option (List (List Char)) :=
  fun c => if c = 4 then some [['#'], ['0', '0', '0', '0'], ['4', '2', ' ']] else none

/-- Concrete instantiation of the next_digit contract on the example file:
line 1 serves the stripped candidate "42", and line 2 (the line count minus
one) is the exhaustion marker. -/
theorem next_digit_spec_check :
    next_digit exampleFS 4 2 = NDResult.done ∧
    next_digit exampleFS 4 1 = NDResult.candidate (pyStrip ['4', '2', ' ']) :=
  ⟨((next_digit_spec exampleFS exampleFS 4 2
      [['#'], ['0', '0', '0', '0'], ['4', '2', ' ']]).2.2.1 rfl (by decide)
      (by decide)).1,
   by
    obtain ⟨s, hs, hres⟩ := (next_digit_spec exampleFS exampleFS 4 1
      [['#'], ['0', '0', '0', '0'], ['4', '2', ' ']]).2.2.2 rfl (by decide)
    have : s = ['4', '2', ' '] := by
      have := hs
      simp [List.get?] at this
      exact this.symm
    rw [this] at hres
    exact hres⟩

end PiDroid
